import Mathlib

/-!
Verification of the tournament scoring and rating engine of the bowling
league portal.  The definitions below are shallow embeddings of the
TypeScript source: the document-store backend (tournaments service,
`calculateAndSaveRatingPoints`, `calculateHandicap`, `calculateNumberOfGames`,
`updateParticipationResult`) and the relational backend (`app.module.ts`,
same symbols), plus the season leaderboard builder.  JavaScript `null` is
modelled by `Option`, JavaScript numbers occurring in scores by `Int`, and
real-number division by `ℚ`.  `Array.prototype.sort` is stable (ES2019) and
all comparators used by the source are consistent, so a sort call is
modelled by Mathlib's stable `List.insertionSort` on the relation
"comparator result ≤ 0".
-/

namespace Bowling

/-- A tournament participation record, with exactly the fields the scoring
engine reads or writes: `handicap`, `gameScores`, the cached `totalScore`,
`finalsScores`, and the resolver outputs `finalPosition` and
`ratingPointsEarned`.  Nullable fields are `Option`. -/
structure TournamentParticipation where
  pid : Nat
  handicap : Option Int
  gameScores : Option (List Int)
  totalScore : Option Int
  finalsScores : Option (List Int)
  finalPosition : Option Int
  ratingPointsEarned : Option Int
deriving DecidableEq, Repr

/-- Game-count policy, from `calculateNumberOfGames` (identical in
`src/web/src/lib/utils.ts`, the document backend and the relational
backend): `≤ 8 → 6`, `≤ 12 → 7`, otherwise `8`. -/
def calculateNumberOfGames (participantCount : Nat) : Nat :=
  if participantCount ≤ 8 then 6
  else if participantCount ≤ 12 then 7
  else 8

/-- JavaScript `Math.round`: round half toward positive infinity,
`⌊x + 1/2⌋`. -/
def jsRound (q : ℚ) : ℤ :=
  ⌊q + 1 / 2⌋

/-- One prior participation of a player, as fetched for the handicap
computation: the list is ordered by tournament date descending; `completed`
models membership of the owning tournament in the season's COMPLETED
tournaments; `gameScores` is `none` when the stored field is `null`. -/
structure HistoryParticipation where
  completed : Bool
  gameScores : Option (List Int)
deriving DecidableEq, Repr

/-- The filter applied to the fetched history in `calculateHandicap`:
participations of a COMPLETED tournament whose `gameScores` is a non-null
array. -/
def eligibleHistory (ps : List HistoryParticipation) : List HistoryParticipation :=
  ps.filter (fun p => p.completed && p.gameScores.isSome)

/-- Handicap calculator, from `calculateHandicap` in the document backend:
keep the first two eligible results (the input list is ordered by
tournament date descending), return `null` if fewer than two exist;
accumulate score total and game count over the first 6 entries of each
`gameScores`, counting only scores `> 0`; return `null` if no game counts;
otherwise clamp `Math.round((180 - average) / 2)` to `[-15, 15]`. -/
def calculateHandicap (ps : List HistoryParticipation) : Option Int :=
  let participations := (eligibleHistory ps).take 2
  if participations.length < 2 then none
  else
    let acc : Int × Nat := participations.foldl
      (fun acc p => ((p.gameScores.getD []).take 6).foldl
        (fun a s => if 0 < s then (a.1 + s, a.2 + 1) else a) acc)
      (0, 0)
    if acc.2 = 0 then none
    else
      let average : ℚ := (acc.1 : ℚ) / (acc.2 : ℚ)
      some (max (-15) (min 15 (jsRound ((180 - average) / 2))))

/-- Modelled from the spec: rounding mode "round half away from zero"
named in §4.2 step 6 of the specification. -/
def roundHalfAwayFromZero (q : ℚ) : ℤ :=
  if 0 ≤ q then ⌊q + 1 / 2⌋ else -⌊-q + 1 / 2⌋

/-- Modelled from the spec: the alternative rounding mode "banker's
rounding" (round half to even) named in §4.2 step 6 of the specification. -/
def roundHalfToEven (q : ℚ) : ℤ :=
  if q - ⌊q⌋ = 1 / 2 then (if 2 ∣ ⌊q⌋ then ⌊q⌋ else ⌊q⌋ + 1)
  else ⌊q + 1 / 2⌋

/-- Modelled from the spec: the handicap computation of §4.2 with the
"round half away from zero" mode in step 6 (the rest of the pipeline is as
in `calculateHandicap`). -/
def specHandicapRoundAway (ps : List HistoryParticipation) : Option Int :=
  let participations := (eligibleHistory ps).take 2
  if participations.length < 2 then none
  else
    let acc : Int × Nat := participations.foldl
      (fun acc p => ((p.gameScores.getD []).take 6).foldl
        (fun a s => if 0 < s then (a.1 + s, a.2 + 1) else a) acc)
      (0, 0)
    if acc.2 = 0 then none
    else
      let average : ℚ := (acc.1 : ℚ) / (acc.2 : ℚ)
      some (max (-15) (min 15 (roundHalfAwayFromZero ((180 - average) / 2))))

/-- Modelled from the spec: the handicap computation of §4.2 with the
"banker's rounding" mode in step 6 (the rest of the pipeline is as in
`calculateHandicap`). -/
def specHandicapRoundEven (ps : List HistoryParticipation) : Option Int :=
  let participations := (eligibleHistory ps).take 2
  if participations.length < 2 then none
  else
    let acc : Int × Nat := participations.foldl
      (fun acc p => ((p.gameScores.getD []).take 6).foldl
        (fun a s => if 0 < s then (a.1 + s, a.2 + 1) else a) acc)
      (0, 0)
    if acc.2 = 0 then none
    else
      let average : ℚ := (acc.1 : ℚ) / (acc.2 : ℚ)
      some (max (-15) (min 15 (roundHalfToEven ((180 - average) / 2))))

/-- Truthiness test used throughout the resolver:
`p.finalsScores && Array.isArray(p.finalsScores) && p.finalsScores.length > 0`. -/
def hasFinalsScores (p : TournamentParticipation) : Bool :=
  !(p.finalsScores.getD []).isEmpty

/-- Finals total: `p.finalsScores.reduce((sum, s) => sum + s, 0)`. -/
def finalsTotal (p : TournamentParticipation) : Int :=
  (p.finalsScores.getD []).foldl (· + ·) 0

/-- Qualification total with handicap:
`(p.totalScore || 0) + (p.handicap || 0) * numberOfGames`. -/
def qualTotal (numberOfGames : Int) (p : TournamentParticipation) : Int :=
  p.totalScore.getD 0 + p.handicap.getD 0 * numberOfGames

/-- Condition recomputed inside the comparator of both backends:
`participations.some((p) => p.finalsScores && ... && p.finalsScores.length > 0)`. -/
def docHasFinalsResults (participations : List TournamentParticipation) : Bool :=
  participations.any hasFinalsScores

/-- The sort comparator of the document backend's
`calculateAndSaveRatingPoints` (part_005 lines 337-350), returning the
JavaScript comparator value. -/
def docCompare (participations : List TournamentParticipation) (numberOfGames : Int)
    (a b : TournamentParticipation) : Int :=
  if docHasFinalsResults participations then
    if hasFinalsScores a && hasFinalsScores b then finalsTotal b - finalsTotal a
    else if hasFinalsScores a then -1
    else if hasFinalsScores b then 1
    else qualTotal numberOfGames b - qualTotal numberOfGames a
  else qualTotal numberOfGames b - qualTotal numberOfGames a

/-- The sort comparator of the relational backend's
`calculateAndSaveRatingPoints` (app.module.ts lines 342-377), with the
named intermediate values of that source. -/
def relCompare (participations : List TournamentParticipation) (numberOfGames : Int)
    (a b : TournamentParticipation) : Int :=
  let hasFinalsResults := participations.any fun p => !(p.finalsScores.getD []).isEmpty
  if hasFinalsResults then
    let aHasFinalsScores := !(a.finalsScores.getD []).isEmpty
    let bHasFinalsScores := !(b.finalsScores.getD []).isEmpty
    if aHasFinalsScores && bHasFinalsScores then
      let finalsA := (a.finalsScores.getD []).foldl (· + ·) 0
      let finalsB := (b.finalsScores.getD []).foldl (· + ·) 0
      finalsB - finalsA
    else if aHasFinalsScores then -1
    else if bHasFinalsScores then 1
    else
      let qualA := a.totalScore.getD 0 + a.handicap.getD 0 * numberOfGames
      let qualB := b.totalScore.getD 0 + b.handicap.getD 0 * numberOfGames
      qualB - qualA
  else
    let totalA := a.totalScore.getD 0 + a.handicap.getD 0 * numberOfGames
    let totalB := b.totalScore.getD 0 + b.handicap.getD 0 * numberOfGames
    totalB - totalA

/-- Sort order of the document backend: comparator value at most `0` means
`a` sorts no later than `b`.  A JavaScript stable sort with a consistent
comparator produces exactly the stable order of this relation. -/
def docLe (participations : List TournamentParticipation) (numberOfGames : Int)
    (a b : TournamentParticipation) : Prop :=
  docCompare participations numberOfGames a b ≤ 0

/-- Sort order of the relational backend. -/
def relLe (participations : List TournamentParticipation) (numberOfGames : Int)
    (a b : TournamentParticipation) : Prop :=
  relCompare participations numberOfGames a b ≤ 0

instance (participations : List TournamentParticipation) (numberOfGames : Int) :
    DecidableRel (docLe participations numberOfGames) :=
  fun _ _ => Int.decLe _ _

instance (participations : List TournamentParticipation) (numberOfGames : Int) :
    DecidableRel (relLe participations numberOfGames) :=
  fun _ _ => Int.decLe _ _

/-- Document backend `calculateAndSaveRatingPoints`: returns the batch of
writes `(participation, finalPosition, ratingPointsEarned)`.  The `none`
case of the distribution models the early return when the season has no
`ratingConfig.pointsDistribution`; an empty participation list is a no-op;
otherwise the participations are stable-sorted by the comparator and
position `index + 1` earns `pointsDistribution[position] || 0`. -/
def docCalculateAndSaveRatingPoints (ratingPointsDistribution : Option (List (Nat × Int)))
    (participations : List TournamentParticipation) :
    List (TournamentParticipation × Nat × Int) :=
  match ratingPointsDistribution with
  | none => []
  | some pointsDistribution =>
    if participations.length = 0 then []
    else
      let numberOfGames : Int := (calculateNumberOfGames participations.length : Int)
      let sortedParticipations :=
        List.insertionSort (docLe participations numberOfGames) participations
      sortedParticipations.enum.map fun ip =>
        (ip.2, ip.1 + 1, (pointsDistribution.lookup (ip.1 + 1)).getD 0)

/-- Relational backend `calculateAndSaveRatingPoints` (app.module.ts
lines 322-394), same shape: guard on the rating configuration, guard on
empty participations, stable sort by `relCompare`, then per-index update
with `pointsDistribution[position.toString()] || 0`. -/
def relCalculateAndSaveRatingPoints (ratingPointsDistribution : Option (List (Nat × Int)))
    (participations : List TournamentParticipation) :
    List (TournamentParticipation × Nat × Int) :=
  match ratingPointsDistribution with
  | none => []
  | some pointsDistribution =>
    if participations.length = 0 then []
    else
      let numberOfGames : Int := (calculateNumberOfGames participations.length : Int)
      let sortedParticipations :=
        List.insertionSort (relLe participations numberOfGames) participations
      sortedParticipations.enum.map fun ip =>
        (ip.2, ip.1 + 1, (pointsDistribution.lookup (ip.1 + 1)).getD 0)

/-- Update payload `UpdateParticipationResultDto`: every field optional. -/
structure UpdateParticipationResultDto where
  finalPosition : Option Int
  handicap : Option Int
  gameScores : Option (List Int)
  totalScore : Option Int
  ratingPointsEarned : Option Int
deriving DecidableEq, Repr

/-- Document backend `updateParticipationResult` core: spread the DTO over
the stored record (`{...updateData}` — present fields overwrite), and when
`gameScores` is a non-null array overwrite `totalScore` with
`gameScores.reduce((sum, score) => sum + score, 0)`. -/
def docUpdateParticipationResult (p : TournamentParticipation)
    (updateData : UpdateParticipationResultDto) : TournamentParticipation :=
  { pid := p.pid
    handicap := updateData.handicap.or p.handicap
    gameScores := updateData.gameScores.or p.gameScores
    totalScore :=
      match updateData.gameScores with
      | some gameScores => some (gameScores.foldl (· + ·) 0)
      | none => updateData.totalScore.or p.totalScore
    finalsScores := p.finalsScores
    finalPosition := updateData.finalPosition.or p.finalPosition
    ratingPointsEarned := updateData.ratingPointsEarned.or p.ratingPointsEarned }

/-- Relational backend `updateParticipationResult` core (app.module.ts
lines 650-654): identical merge — `dataToUpdate = {...updateData}` and a
recomputed `totalScore` when `gameScores` is provided. -/
def relUpdateParticipationResult (p : TournamentParticipation)
    (updateData : UpdateParticipationResultDto) : TournamentParticipation :=
  { pid := p.pid
    handicap := updateData.handicap.or p.handicap
    gameScores := updateData.gameScores.or p.gameScores
    totalScore :=
      match updateData.gameScores with
      | some gameScores => some (gameScores.foldl (· + ·) 0)
      | none => updateData.totalScore.or p.totalScore
    finalsScores := p.finalsScores
    finalPosition := updateData.finalPosition.or p.finalPosition
    ratingPointsEarned := updateData.ratingPointsEarned.or p.ratingPointsEarned }

/-- A participation row as fetched by the season leaderboard query
(ordered by tournament date ascending). -/
structure SeasonParticipationRow where
  playerId : Nat
  tournamentId : Nat
  ratingPointsEarned : Option Int
  finalPosition : Option Int
  gameScores : Option (List Int)
deriving DecidableEq, Repr

/-- The per-player accumulator of `getLeaderboard` (the value type of the
`playerRatings` map). -/
structure PlayerRatingAcc where
  playerId : Nat
  totalPoints : Int
  tournamentsPlayed : Nat
  totalPosition : Int
  positionCount : Nat
  totalGameScore : Int
  totalGamesPlayed : Nat
  tournaments : List (Nat × Option Int × Int)
deriving DecidableEq, Repr

/-- One returned leaderboard entry. -/
structure LeaderboardEntry where
  rank : Nat
  playerId : Nat
  totalPoints : Int
  tournamentsPlayed : Nat
  averagePoints : ℚ
  averagePosition : ℚ
  tournaments : List (Nat × Option Int × Int)
deriving DecidableEq, Repr

/-- Folding one fetched row into the accumulator of its player:
`points = ratingPointsEarned || 0`; `totalPoints += points`;
`tournamentsPlayed += 1`; position and positive game scores tracked for
the averages; the tournament appended to the player's list. -/
def applyRow (acc : PlayerRatingAcc) (row : SeasonParticipationRow) : PlayerRatingAcc :=
  let points := row.ratingPointsEarned.getD 0
  { acc with
    totalPoints := acc.totalPoints + points
    tournamentsPlayed := acc.tournamentsPlayed + 1
    totalPosition :=
      match row.finalPosition with
      | some pos => acc.totalPosition + pos
      | none => acc.totalPosition
    positionCount :=
      match row.finalPosition with
      | some _ => acc.positionCount + 1
      | none => acc.positionCount
    totalGameScore :=
      acc.totalGameScore + ((row.gameScores.getD []).filter (fun s => 0 < s)).foldl (· + ·) 0
    totalGamesPlayed :=
      acc.totalGamesPlayed + ((row.gameScores.getD []).filter (fun s => 0 < s)).length
    tournaments := acc.tournaments ++ [(row.tournamentId, row.finalPosition, points)] }

/-- An empty accumulator, as first inserted into the `playerRatings` map. -/
def emptyAcc (playerId : Nat) : PlayerRatingAcc :=
  ⟨playerId, 0, 0, 0, 0, 0, 0, []⟩

/-- Inserting a row into the association list that models the
insertion-ordered `playerRatings` `Map`. -/
def insertRow : List PlayerRatingAcc → SeasonParticipationRow → List PlayerRatingAcc
  | [], row => [applyRow (emptyAcc row.playerId) row]
  | acc :: rest, row =>
    if acc.playerId = row.playerId then applyRow acc row :: rest
    else acc :: insertRow rest row

/-- Converting an accumulator to an entry (rank `0`, recomputed after the
sort; averages guarded by zero denominators as in the source). -/
def accToEntry (acc : PlayerRatingAcc) : LeaderboardEntry :=
  { rank := 0
    playerId := acc.playerId
    totalPoints := acc.totalPoints
    tournamentsPlayed := acc.tournamentsPlayed
    averagePoints :=
      if 0 < acc.tournamentsPlayed then (acc.totalPoints : ℚ) / (acc.tournamentsPlayed : ℚ)
      else 0
    averagePosition :=
      if 0 < acc.totalGamesPlayed then (acc.totalGameScore : ℚ) / (acc.totalGamesPlayed : ℚ)
      else 0
    tournaments := acc.tournaments }

/-- Leaderboard sort order: comparator `(a, b) => b.totalPoints - a.totalPoints`,
kept when its value is at most `0`. -/
def leaderboardLe (a b : LeaderboardEntry) : Prop :=
  b.totalPoints - a.totalPoints ≤ 0

instance : DecidableRel leaderboardLe :=
  fun _ _ => Int.decLe _ _

/-- Season leaderboard builder `getLeaderboard` (identical in both
backends): aggregate rows per player in first-appearance order, convert to
entries, stable-sort by `totalPoints` descending, then assign
`rank = index + 1`. -/
def getLeaderboard (rows : List SeasonParticipationRow) : List LeaderboardEntry :=
  let grouped := rows.foldl insertRow []
  let entries := grouped.map accToEntry
  let sorted := List.insertionSort leaderboardLe entries
  sorted.enum.map fun ip => { ip.2 with rank := ip.1 + 1 }

/-- Lexicographic sort key characterising `docCompare`. -/
def sortKey (participations : List TournamentParticipation) (numberOfGames : Int)
    (p : TournamentParticipation) : ℤ ×ₗ ℤ :=
  if docHasFinalsResults participations then
    toLex ((if hasFinalsScores p then (0 : ℤ) else 1),
      -(if hasFinalsScores p then finalsTotal p else qualTotal numberOfGames p))
  else toLex ((0 : ℤ), -qualTotal numberOfGames p)

/-- Qualification score exactly as the specification words it: sum of the
qualification game scores plus handicap times the required game count. -/
def specQualScore (numberOfGames : Int) (p : TournamentParticipation) : Int :=
  (p.gameScores.getD []).foldl (· + ·) 0 + p.handicap.getD 0 * numberOfGames

/-- Erasing the `gameScores` field, to express that the placement resolver
never reads it. -/
def eraseGameScores (p : TournamentParticipation) : TournamentParticipation :=
  { p with gameScores := none }

/-- A history with two completed tournaments averaging 180. -/
def hist180 : List HistoryParticipation :=
  [⟨true, some [180]⟩, ⟨true, some [180]⟩]

/-- A history with two completed tournaments averaging 120. -/
def hist120 : List HistoryParticipation :=
  [⟨true, some [120]⟩, ⟨true, some [120]⟩]

/-- A history with two completed tournaments averaging 240. -/
def hist240 : List HistoryParticipation :=
  [⟨true, some [240]⟩, ⟨true, some [240]⟩]

/-- A history with two completed tournaments averaging 187, so that the
raw handicap `(180 - 187) / 2 = -3.5` is a negative exact half. -/
def hist187 : List HistoryParticipation :=
  [⟨true, some [187]⟩, ⟨true, some [187]⟩]

/-- A history with a single completed tournament with valid scores. -/
def histOne : List HistoryParticipation :=
  [⟨true, some [200, 180]⟩]

/-- A stored participation with all nullable fields unset. -/
def sampleParticipation : TournamentParticipation :=
  ⟨1, none, none, none, none, none, none⟩

/-- An update payload carrying game scores (with a 0 entry) and nothing
else. -/
def sampleUpdate : UpdateParticipationResultDto :=
  ⟨none, none, some [200, 0, 150], none, none⟩

/-- A points distribution mapping placement 1 to 100 points. -/
def pdOne : List (Nat × Int) := [(1, 100)]

/-- The specification's example distribution `{1: 100, 2: 80, 3: 60}`. -/
def pdThree : List (Nat × Int) := [(1, 100), (2, 80), (3, 60)]

/-- A non-finalist with qualification-derived total 10000 listed before a
finalist with finals total 50 (the specification's concrete finals
precedence example). -/
def finalsParts : List TournamentParticipation :=
  [⟨1, none, none, some 10000, none, none, none⟩,
   ⟨2, none, none, some 180, some [30, 20], none, none⟩]

/-- Three participations with qualification totals 180, 200 and 150, no
handicaps and no finals (the specification's end-to-end example), with the
cached totals consistent with the game scores. -/
def threeParts : List TournamentParticipation :=
  [⟨1, none, some [180], some 180, none, none, none⟩,
   ⟨2, none, some [200], some 200, none, none, none⟩,
   ⟨3, none, some [150], some 150, none, none, none⟩]

/-- Three no-finals participations with a qualification-total tie between
the first and the third. -/
def tieParts : List TournamentParticipation :=
  [⟨1, none, some [500], some 500, none, none, none⟩,
   ⟨2, none, some [600], some 600, none, none, none⟩,
   ⟨3, none, some [500], some 500, none, none, none⟩]

/-- Two leaderboard rows for different players with equal rating points. -/
def tieRows : List SeasonParticipationRow :=
  [⟨1, 10, some 50, some 1, some [200]⟩,
   ⟨2, 10, some 50, some 2, some [190]⟩]

/-! Helper lemmas: stable sorting with respect to a key function. -/

section StableSortByKey

variable {α : Type} {κ : Type} [LinearOrder κ]
variable (r : α → α → Prop) [DecidableRel r] (k : α → κ)

/-- Inserting an element into a list and then filtering for one key class
keeps the class's elements in order, with the new element first when it
belongs to the class. -/
lemma filter_orderedInsert_key (hk : ∀ a b, r a b ↔ k a ≤ k b) (c : κ) (a : α) :
    ∀ l : List α, (List.orderedInsert r a l).filter (fun x => decide (k x = c)) =
      if k a = c then a :: l.filter (fun x => decide (k x = c))
      else l.filter (fun x => decide (k x = c)) := by
  intro l
  induction l with
  | nil =>
    by_cases hc : k a = c <;> simp [List.orderedInsert, hc]
  | cons b l ih =>
    by_cases hab : r a b
    · rw [List.orderedInsert, if_pos hab]
      by_cases hc : k a = c <;> by_cases hbc : k b = c <;>
        simp [List.filter_cons, hc, hbc]
    · have hba : k b < k a := lt_of_not_le (fun h => hab ((hk a b).mpr h))
      rw [List.orderedInsert, if_neg hab, List.filter_cons, List.filter_cons, ih]
      by_cases hbc : k b = c
      · have hac : k a ≠ c := by
          intro h
          rw [h, hbc] at hba
          exact lt_irrefl c hba
        simp [hbc, hac]
      · by_cases hc : k a = c <;> simp [hbc, hc, List.filter_cons]

/-- Stability of insertion sort: filtering the sorted list for one key
class gives the class's elements in input order. -/
lemma filter_insertionSort_key (hk : ∀ a b, r a b ↔ k a ≤ k b) (c : κ) :
    ∀ l : List α, (List.insertionSort r l).filter (fun x => decide (k x = c)) =
      l.filter (fun x => decide (k x = c)) := by
  intro l
  induction l with
  | nil => rfl
  | cons a l ih =>
    rw [List.insertionSort, filter_orderedInsert_key r k hk c a _, ih, List.filter_cons]
    by_cases hc : k a = c <;> simp [hc]

/-- A relation that is reflected by a key into a linear order sorts
totally. -/
lemma sorted_insertionSort_key (hk : ∀ a b, r a b ↔ k a ≤ k b) (l : List α) :
    (List.insertionSort r l).Sorted r := by
  haveI : IsTotal α r := ⟨fun a b => by
    rcases le_total (k a) (k b) with h | h
    · exact Or.inl ((hk a b).mpr h)
    · exact Or.inr ((hk b a).mpr h)⟩
  haveI : IsTrans α r := ⟨fun a b c h1 h2 =>
    (hk a c).mpr (le_trans ((hk a b).mp h1) ((hk b c).mp h2))⟩
  exact List.sorted_insertionSort r l

omit [DecidableRel r] in
/-- In a sorted list the key is monotone in the index. -/
lemma key_mono_of_sorted (hk : ∀ a b, r a b ↔ k a ≤ k b) {l : List α}
    (h : l.Sorted r) {i j : Nat} (hi : i < l.length) (hj : j < l.length) (hij : i ≤ j) :
    k (l.get ⟨i, hi⟩) ≤ k (l.get ⟨j, hj⟩) := by
  rcases eq_or_lt_of_le hij with rfl | hlt
  · exact le_refl _
  · exact (hk _ _).mp (h.rel_get_of_lt (show (⟨i, hi⟩ : Fin l.length) < ⟨j, hj⟩ from hlt))

end StableSortByKey

/-! Helper lemmas: enumeration and association-list lookup. -/

lemma enumFrom_map_snd {β : Type} : ∀ (l : List β) (s : Nat),
    (List.enumFrom s l).map Prod.snd = l
  | [], _ => rfl
  | a :: l, s => by
    simp only [List.enumFrom, List.map_cons, List.cons.injEq, true_and]
    exact enumFrom_map_snd l (s + 1)

lemma enumFrom_map_posIdx {β : Type} : ∀ (l : List β) (s : Nat),
    (List.enumFrom s l).map (fun ip => ip.1 + 1) = List.range' (s + 1) l.length
  | [], _ => rfl
  | a :: l, s => by
    simp only [List.enumFrom, List.map_cons, List.length_cons, List.range']
    exact congrArg (List.cons (s + 1)) (enumFrom_map_posIdx l (s + 1))

lemma mem_of_lookup_eq_some {dist : List (Nat × Int)} {key : Nat} {v : Int} :
    dist.lookup key = some v → (key, v) ∈ dist := by
  induction dist with
  | nil => intro h; cases h
  | cons hd tl ih =>
    rcases hd with ⟨a, b⟩
    intro h
    by_cases hab : key = a
    · subst hab
      have hbeq : (key == key) = true := beq_self_eq_true key
      simp only [List.lookup, hbeq] at h
      cases h
      exact List.mem_cons_self _ _
    · have hbeq : (key == a) = false := beq_false_of_ne hab
      simp only [List.lookup, hbeq] at h
      exact List.mem_cons_of_mem _ (ih h)

/-! The comparator of `calculateAndSaveRatingPoints` is reflected by a
lexicographic key: finalists (when any exist) before non-finalists, then
finals total descending for finalists and qualification total descending
for everyone else. -/

lemma docLe_iff_sortKey (participations : List TournamentParticipation)
    (numberOfGames : Int) (a b : TournamentParticipation) :
    docLe participations numberOfGames a b ↔
      sortKey participations numberOfGames a ≤ sortKey participations numberOfGames b := by
  unfold docLe docCompare sortKey
  cases hf : docHasFinalsResults participations
  · simp only [Bool.false_eq_true, if_false, Prod.Lex.le_iff, true_and,
      lt_self_iff_false, false_or]
    omega
  · simp only [if_true]
    by_cases ha : hasFinalsScores a <;> by_cases hb : hasFinalsScores b <;>
      simp only [ha, hb, Bool.true_and, Bool.false_and, Bool.and_true, Bool.and_false,
        if_true, if_false, Bool.false_eq_true, Prod.Lex.le_iff, true_and,
        lt_self_iff_false, false_or] <;>
      omega

lemma enumFrom_map_assign {α : Type} (f : α → α) (pd : List (Nat × Int)) :
    ∀ (l : List α) (s : Nat),
      (List.enumFrom s (l.map f)).map
          (fun ip => (ip.2, ip.1 + 1, (pd.lookup (ip.1 + 1)).getD 0)) =
        ((List.enumFrom s l).map
            (fun ip => (ip.2, ip.1 + 1, (pd.lookup (ip.1 + 1)).getD 0))).map
          (fun e => (f e.1, e.2.1, e.2.2))
  | [], _ => rfl
  | a :: l, s => by
    simp only [List.map_cons, List.enumFrom]
    exact congrArg (List.cons (f a, s + 1, (pd.lookup (s + 1)).getD 0))
      (enumFrom_map_assign f pd l (s + 1))

lemma docCompare_eraseGameScores (participations : List TournamentParticipation)
    (numberOfGames : Int) (a b : TournamentParticipation) :
    docCompare (participations.map eraseGameScores) numberOfGames
        (eraseGameScores a) (eraseGameScores b) =
      docCompare participations numberOfGames a b := by
  unfold docCompare docHasFinalsResults hasFinalsScores finalsTotal qualTotal eraseGameScores
  simp [List.any_map, Function.comp]

lemma docLe_eraseGameScores (participations : List TournamentParticipation)
    (numberOfGames : Int) (a b : TournamentParticipation) :
    docLe participations numberOfGames a b ↔
      docLe (participations.map eraseGameScores) numberOfGames
        (eraseGameScores a) (eraseGameScores b) := by
  unfold docLe
  rw [docCompare_eraseGameScores]

lemma docOut_eq (dist : List (Nat × Int)) (participations : List TournamentParticipation)
    (h0 : participations ≠ []) :
    docCalculateAndSaveRatingPoints (some dist) participations =
      (List.insertionSort
          (docLe participations (calculateNumberOfGames participations.length : Int))
          participations).enum.map
        (fun ip => (ip.2, ip.1 + 1, (dist.lookup (ip.1 + 1)).getD 0)) := by
  have h1 : ¬ participations.length = 0 := by
    simpa [List.length_eq_zero] using h0
  simp only [docCalculateAndSaveRatingPoints, h1, if_false]

lemma assign_get (dist : List (Nat × Int)) (s : List TournamentParticipation) (i : Nat)
    (hi : i < ((s.enum.map
      (fun ip => (ip.2, ip.1 + 1, (dist.lookup (ip.1 + 1)).getD 0))).length))
    (hs : i < s.length) :
    ((s.enum.map (fun ip => (ip.2, ip.1 + 1, (dist.lookup (ip.1 + 1)).getD 0))).get ⟨i, hi⟩) =
      (s.get ⟨i, hs⟩, i + 1, (dist.lookup (i + 1)).getD 0) := by
  simp [List.get_eq_getElem, List.getElem_map, List.getElem_enum]

lemma docSorted_sorted (participations : List TournamentParticipation) (numberOfGames : Int) :
    (List.insertionSort (docLe participations numberOfGames) participations).Sorted
      (docLe participations numberOfGames) :=
  sorted_insertionSort_key (docLe participations numberOfGames)
    (sortKey participations numberOfGames)
    (docLe_iff_sortKey participations numberOfGames) participations

lemma sortKey_finals (participations : List TournamentParticipation) (numberOfGames : Int)
    (p : TournamentParticipation) (hf : docHasFinalsResults participations = true) :
    sortKey participations numberOfGames p =
      toLex ((if hasFinalsScores p then (0 : ℤ) else 1),
        -(if hasFinalsScores p then finalsTotal p else qualTotal numberOfGames p)) := by
  simp [sortKey, hf]

lemma sortKey_noFinals (participations : List TournamentParticipation) (numberOfGames : Int)
    (p : TournamentParticipation) (hnf : docHasFinalsResults participations = false) :
    sortKey participations numberOfGames p = toLex ((0 : ℤ), -qualTotal numberOfGames p) := by
  simp [sortKey, hnf]

lemma rank_assign_get (s : List LeaderboardEntry) (i : Nat)
    (hi : i < ((s.enum.map (fun ip => { ip.2 with rank := ip.1 + 1 })).length))
    (hs : i < s.length) :
    ((s.enum.map (fun ip => { ip.2 with rank := ip.1 + 1 })).get ⟨i, hi⟩) =
      { s.get ⟨i, hs⟩ with rank := i + 1 } := by
  simp [List.get_eq_getElem, List.getElem_map, List.getElem_enum]

lemma leaderboardLe_iff (a b : LeaderboardEntry) :
    leaderboardLe a b ↔ -a.totalPoints ≤ -b.totalPoints := by
  unfold leaderboardLe
  omega

/-- C7: the game-count policy is total on participant counts with the
fixed thresholds `≤ 8 → 6`, `9..12 → 7`, `≥ 13 → 8`, hence monotone, with
the concrete values `gameCount 8 = 6`, `gameCount 9 = 7`,
`gameCount 12 = 7`, `gameCount 13 = 8`. -/
theorem c7_gameCount_policy :
    (∀ n : Nat, n ≤ 8 → calculateNumberOfGames n = 6) ∧
    (∀ n : Nat, 9 ≤ n → n ≤ 12 → calculateNumberOfGames n = 7) ∧
    (∀ n : Nat, 13 ≤ n → calculateNumberOfGames n = 8) ∧
    (∀ n1 n2 : Nat, n1 < n2 → calculateNumberOfGames n1 ≤ calculateNumberOfGames n2) ∧
    calculateNumberOfGames 8 = 6 ∧ calculateNumberOfGames 9 = 7 ∧
    calculateNumberOfGames 12 = 7 ∧ calculateNumberOfGames 13 = 8 := by
  refine ⟨?_, ?_, ?_, ?_, rfl, rfl, rfl, rfl⟩
  · intro n hn
    unfold calculateNumberOfGames
    split_ifs <;> omega
  · intro n h9 h12
    unfold calculateNumberOfGames
    split_ifs <;> omega
  · intro n h13
    unfold calculateNumberOfGames
    split_ifs <;> omega
  · intro n1 n2 hlt
    unfold calculateNumberOfGames
    split_ifs <;> omega

/-- C7 witness: the monotonicity statement applied across the 8-to-9
threshold. -/
theorem c7_witness : 8 < 9 ∧ calculateNumberOfGames 8 ≤ calculateNumberOfGames 9 :=
  ⟨by decide, c7_gameCount_policy.2.2.2.1 8 9 (by decide)⟩

/-- C9: the document-store and relational implementations of
`calculateAndSaveRatingPoints` assign identical positions and rating
points on every input. -/
theorem c9_backends_equivalent :
    ∀ (ratingPointsDistribution : Option (List (Nat × Int)))
      (participations : List TournamentParticipation),
      docCalculateAndSaveRatingPoints ratingPointsDistribution participations =
        relCalculateAndSaveRatingPoints ratingPointsDistribution participations := by
  intro pd participations
  rfl

/-- C6: the handicap calculator returns `null` whenever fewer than two
eligible prior results exist, and its output depends only on the first
two eligible results of the date-descending history (the two most recent
completed tournaments). -/
theorem c6_two_most_recent (ps : List HistoryParticipation) :
    ((eligibleHistory ps).length < 2 → calculateHandicap ps = none) ∧
    calculateHandicap ps = calculateHandicap ((eligibleHistory ps).take 2) := by
  constructor
  · intro hlen
    unfold calculateHandicap
    have : ((eligibleHistory ps).take 2).length < 2 := by
      rw [List.length_take]
      omega
    simp only [this, if_true]
  · have he : eligibleHistory ((eligibleHistory ps).take 2) = (eligibleHistory ps).take 2 := by
      unfold eligibleHistory
      apply List.filter_eq_self.mpr
      intro x hx
      have hx2 : x ∈ List.filter (fun p => p.completed && p.gameScores.isSome) ps :=
        List.mem_of_mem_take hx
      simpa using (List.mem_filter.mp hx2).2
    unfold calculateHandicap
    rw [he, List.take_take]
    norm_num

/-- C6 witness: a player with exactly one completed tournament, with
valid scores, gets no handicap. -/
theorem c6_witness : (eligibleHistory histOne).length < 2 ∧ calculateHandicap histOne = none :=
  ⟨by decide, (c6_two_most_recent histOne).1 (by decide)⟩

/-- C4: every computed handicap is clamped to `[-15, 15]`; concretely an
average of 180 gives 0, an average of 120 gives 15 (raw 30 clamped) and an
average of 240 gives -15 (raw -30 clamped). -/
theorem c4_handicap_bounded :
    (∀ (ps : List HistoryParticipation) (h : Int),
        calculateHandicap ps = some h → -15 ≤ h ∧ h ≤ 15) ∧
    calculateHandicap hist180 = some 0 ∧
    calculateHandicap hist120 = some 15 ∧
    calculateHandicap hist240 = some (-15) := by
  refine ⟨?_, ?_, ?_, ?_⟩
  · intro ps h hres
    simp only [calculateHandicap] at hres
    split at hres
    · cases hres
    · split at hres
      · cases hres
      · injection hres with hres
        subst hres
        constructor
        · exact le_max_left _ _
        · exact max_le (by norm_num) (min_le_left _ _)
  · simp only [calculateHandicap, eligibleHistory, hist180, List.filter, List.take,
      List.foldl, Option.isSome, Option.getD, jsRound]
    norm_num
  · simp only [calculateHandicap, eligibleHistory, hist120, List.filter, List.take,
      List.foldl, Option.isSome, Option.getD, jsRound]
    norm_num
  · simp only [calculateHandicap, eligibleHistory, hist240, List.filter, List.take,
      List.foldl, Option.isSome, Option.getD, jsRound]
    norm_num

/-- C4 witness: the boundedness statement applied to the average-120
history, whose raw value 30 is clamped to 15. -/
theorem c4_witness : calculateHandicap hist120 = some 15 ∧ -15 ≤ (15 : Int) ∧ (15 : Int) ≤ 15 := by
  have h1 := c4_handicap_bounded.2.2.1
  exact ⟨h1, c4_handicap_bounded.1 hist120 15 h1⟩

/-- C5 counterexample: on a history with average 187 the raw value
`(180 - 187) / 2 = -3.5` is a negative exact half; the code
(`Math.round`) yields handicap -3, while both rounding modes allowed by
the claim — round-half-away-from-zero and banker's rounding — yield -4. -/
theorem c5_counterexample :
    calculateHandicap hist187 = some (-3) ∧
    specHandicapRoundAway hist187 = some (-4) ∧
    specHandicapRoundEven hist187 = some (-4) ∧
    (some (-3) : Option Int) ≠ some (-4) := by
  refine ⟨?_, ?_, ?_, by decide⟩
  · simp only [calculateHandicap, eligibleHistory, hist187, List.filter, List.take,
      List.foldl, Option.isSome, Option.getD, jsRound]
    norm_num
  · simp only [specHandicapRoundAway, eligibleHistory, hist187, List.filter, List.take,
      List.foldl, Option.isSome, Option.getD, roundHalfAwayFromZero]
    norm_num
  · simp only [specHandicapRoundEven, eligibleHistory, hist187, List.filter, List.take,
      List.foldl, Option.isSome, Option.getD, roundHalfToEven]
    norm_num

/-- C5 amended: the reference rounding is JavaScript `Math.round`, round
half toward positive infinity: on a negative exact half `k + 1/2` (any
`k ≤ -1`) it returns `k + 1`, which is one above round-half-away-from-zero
and agrees with banker's rounding exactly when `k` is odd. -/
theorem c5_amended (k : ℤ) (hk : k ≤ -1) :
    jsRound ((k : ℚ) + 1 / 2) = k + 1 ∧
    roundHalfAwayFromZero ((k : ℚ) + 1 / 2) = k ∧
    roundHalfToEven ((k : ℚ) + 1 / 2) = (if 2 ∣ k then k else k + 1) := by
  have hfloor : (⌊(k : ℚ) + 1 / 2⌋ : ℤ) = k := by
    rw [Int.floor_int_add]
    norm_num
  refine ⟨?_, ?_, ?_⟩
  · unfold jsRound
    have : (k : ℚ) + 1 / 2 + 1 / 2 = ((k + 1 : ℤ) : ℚ) := by
      push_cast
      ring
    rw [this, Int.floor_intCast]
  · unfold roundHalfAwayFromZero
    have hneg : ¬ (0 : ℚ) ≤ (k : ℚ) + 1 / 2 := by
      intro hcon
      have : (k : ℚ) ≤ -1 := by exact_mod_cast hk
      linarith
    rw [if_neg hneg]
    have : -((k : ℚ) + 1 / 2) + 1 / 2 = ((-k : ℤ) : ℚ) := by
      push_cast
      ring
    rw [this, Int.floor_intCast, neg_neg]
  · unfold roundHalfToEven
    rw [hfloor]
    have : (k : ℚ) + 1 / 2 - (k : ℤ) = 1 / 2 := by
      push_cast
      ring
    rw [this, if_pos rfl]

/-- C5 amended witness: instantiated at `k = -4` (raw -3.5, as produced by
average 187). -/
theorem c5_amended_witness :
    (-4 : ℤ) ≤ -1 ∧
    (jsRound (((-4 : ℤ) : ℚ) + 1 / 2) = -4 + 1 ∧
      roundHalfAwayFromZero (((-4 : ℤ) : ℚ) + 1 / 2) = -4 ∧
      roundHalfToEven (((-4 : ℤ) : ℚ) + 1 / 2) = (if 2 ∣ (-4 : ℤ) then (-4 : ℤ) else -4 + 1)) :=
  ⟨by decide, c5_amended (-4) (by decide)⟩

/-- C10: in both backends an update carrying `gameScores` stores
`totalScore = sum(gameScores)` (zero entries included) alongside the
scores, and the placement resolver never reads `gameScores` — erasing
them from every participation commutes with the resolver. -/
theorem c10_totalScore_cache (p : TournamentParticipation)
    (u : UpdateParticipationResultDto) (gs : List Int) (hgs : u.gameScores = some gs) :
    (docUpdateParticipationResult p u).totalScore = some (gs.foldl (· + ·) 0) ∧
    (docUpdateParticipationResult p u).gameScores = some gs ∧
    (relUpdateParticipationResult p u).totalScore = some (gs.foldl (· + ·) 0) ∧
    (relUpdateParticipationResult p u).gameScores = some gs ∧
    (∀ (ratingPointsDistribution : Option (List (Nat × Int)))
        (participations : List TournamentParticipation),
      docCalculateAndSaveRatingPoints ratingPointsDistribution
          (participations.map eraseGameScores) =
        (docCalculateAndSaveRatingPoints ratingPointsDistribution participations).map
          (fun e => (eraseGameScores e.1, e.2.1, e.2.2))) := by
  refine ⟨?_, ?_, ?_, ?_, ?_⟩
  · simp [docUpdateParticipationResult, hgs]
  · simp [docUpdateParticipationResult, hgs, Option.or]
  · simp [relUpdateParticipationResult, hgs]
  · simp [relUpdateParticipationResult, hgs, Option.or]
  · intro pd participations
    unfold docCalculateAndSaveRatingPoints
    cases pd with
    | none => rfl
    | some dist =>
      simp only [List.length_map]
      by_cases h0 : participations.length = 0
      · simp [h0]
      · simp only [h0, if_false]
        have hsort :
            List.insertionSort
                (docLe (participations.map eraseGameScores)
                  (calculateNumberOfGames participations.length : Int))
                (participations.map eraseGameScores) =
              (List.insertionSort
                  (docLe participations (calculateNumberOfGames participations.length : Int))
                  participations).map eraseGameScores := by
          symm
          exact List.map_insertionSort
            (docLe participations (calculateNumberOfGames participations.length : Int))
            (docLe (participations.map eraseGameScores)
              (calculateNumberOfGames participations.length : Int))
            eraseGameScores participations
            (fun a _ b _ => docLe_eraseGameScores participations _ a b)
        rw [hsort]
        exact enumFrom_map_assign eraseGameScores dist _ 0

/-- C1 counterexample: a season without a rating configuration (the
distribution argument is `none`, as stored when `CreateSeasonDto` omits
`pointsDistribution`) completes a tournament with three participations
while `calculateAndSaveRatingPoints` returns early in both backends: the
batch of writes is empty, no `finalPosition` is assigned, and every
participation keeps `ratingPointsEarned = null` after the transition —
refuting the unconditional claim. -/
theorem c1_counterexample :
    threeParts ≠ [] ∧
    docCalculateAndSaveRatingPoints none threeParts = [] ∧
    relCalculateAndSaveRatingPoints none threeParts = [] ∧
    threeParts.map TournamentParticipation.ratingPointsEarned = [none, none, none] ∧
    threeParts.map TournamentParticipation.finalPosition = [none, none, none] :=
  ⟨by decide, rfl, rfl, rfl, rfl⟩

/-- C1 amended: with a points distribution configured and at least one
participation, the resolver assigns positions that are exactly `1..n` (in
sorted order: unique, within `[1, n]`, no gaps) over a permutation of the
participations, and every write carries
`ratingPointsEarned = pointsDistribution[finalPosition] or 0`, which is
non-negative whenever the distribution's values are. -/
theorem c1_placement_totality (dist : List (Nat × Int))
    (participations : List TournamentParticipation)
    (out : List (TournamentParticipation × Nat × Int))
    (hout : out = docCalculateAndSaveRatingPoints (some dist) participations)
    (hne : participations ≠ []) (hnn : ∀ pr ∈ dist, 0 ≤ pr.2) :
    out.map (fun e => e.2.1) = List.range' 1 participations.length ∧
    (out.map (fun e => e.1)).Perm participations ∧
    (∀ e ∈ out, e.2.2 = (dist.lookup e.2.1).getD 0) ∧
    (∀ e ∈ out, 0 ≤ e.2.2) := by
  subst hout
  rw [docOut_eq dist participations hne]
  refine ⟨?_, ?_, ?_, ?_⟩
  · rw [List.map_map]
    have h1 := enumFrom_map_posIdx
      (List.insertionSort
        (docLe participations (calculateNumberOfGames participations.length : Int))
        participations) 0
    rw [List.length_insertionSort] at h1
    exact h1
  · have h2 : (((List.insertionSort
        (docLe participations (calculateNumberOfGames participations.length : Int))
        participations).enum.map
          (fun ip => (ip.2, ip.1 + 1, (dist.lookup (ip.1 + 1)).getD 0))).map
            (fun e => e.1)) =
        List.insertionSort
          (docLe participations (calculateNumberOfGames participations.length : Int))
          participations := by
      rw [List.map_map]
      exact enumFrom_map_snd _ 0
    rw [h2]
    exact List.perm_insertionSort _ _
  · intro e he
    rcases List.mem_map.mp he with ⟨ip, _, rfl⟩
    rfl
  · intro e he
    rcases List.mem_map.mp he with ⟨ip, _, rfl⟩
    cases hl : dist.lookup (ip.1 + 1) with
    | none => simp [hl]
    | some v =>
      simp only [hl, Option.getD_some]
      exact hnn _ (mem_of_lookup_eq_some hl)

/-- C1 witness: the specification's end-to-end example — distribution
`{1: 100, 2: 80, 3: 60}` and qualification totals 180, 200, 150. -/
theorem c1_witness :
    threeParts ≠ [] ∧ (∀ pr ∈ pdThree, 0 ≤ pr.2) ∧
    ((docCalculateAndSaveRatingPoints (some pdThree) threeParts).map (fun e => e.2.1) =
        List.range' 1 threeParts.length ∧
      ((docCalculateAndSaveRatingPoints (some pdThree) threeParts).map
          (fun e => e.1)).Perm threeParts ∧
      (∀ e ∈ docCalculateAndSaveRatingPoints (some pdThree) threeParts,
        e.2.2 = (pdThree.lookup e.2.1).getD 0) ∧
      (∀ e ∈ docCalculateAndSaveRatingPoints (some pdThree) threeParts, 0 ≤ e.2.2)) :=
  ⟨by decide, by decide,
    c1_placement_totality pdThree threeParts _ rfl (by decide) (by decide)⟩

/-- C2: when any participation has finals scores, every finalist is
placed strictly before every non-finalist — regardless of qualification
scores and handicaps — and among finalists positions follow the finals
total (sum of the two finals games, no handicap) descending. -/
theorem c2_finals_precedence (dist : List (Nat × Int))
    (participations : List TournamentParticipation)
    (out : List (TournamentParticipation × Nat × Int))
    (hout : out = docCalculateAndSaveRatingPoints (some dist) participations)
    (hf : docHasFinalsResults participations = true) :
    (∀ (i j : Nat) (hi : i < out.length) (hj : j < out.length),
        hasFinalsScores (out.get ⟨i, hi⟩).1 = true →
        hasFinalsScores (out.get ⟨j, hj⟩).1 = false →
        (out.get ⟨i, hi⟩).2.1 < (out.get ⟨j, hj⟩).2.1) ∧
    (∀ (i j : Nat) (hi : i < out.length) (hj : j < out.length),
        hasFinalsScores (out.get ⟨i, hi⟩).1 = true →
        hasFinalsScores (out.get ⟨j, hj⟩).1 = true →
        i ≤ j →
        finalsTotal (out.get ⟨j, hj⟩).1 ≤ finalsTotal (out.get ⟨i, hi⟩).1) := by
  subst hout
  by_cases hne : participations = []
  · subst hne
    constructor
    · intro i j hi
      exact absurd hi (by simp [docCalculateAndSaveRatingPoints])
    · intro i j hi
      exact absurd hi (by simp [docCalculateAndSaveRatingPoints])
  · rw [docOut_eq dist participations hne]
    set n : Int := (calculateNumberOfGames participations.length : Int) with hn
    set s := List.insertionSort (docLe participations n) participations with hsdef
    constructor
    · intro i j hi hj h1 h2
      have hi2 : i < s.length := by simpa using hi
      have hj2 : j < s.length := by simpa using hj
      simp only [assign_get dist s i hi hi2, assign_get dist s j hj hj2] at h1 h2 ⊢
      rcases Nat.lt_or_ge i j with hij | hij
      · omega
      · exfalso
        rcases Nat.eq_or_lt_of_le hij with heq | hlt
        · subst heq
          rw [h1] at h2
          cases h2
        · have hk := key_mono_of_sorted (docLe participations n) (sortKey participations n)
            (docLe_iff_sortKey participations n) (docSorted_sorted participations n)
            hj2 hi2 (Nat.le_of_lt hlt)
          change sortKey participations n (s.get ⟨j, hj2⟩) ≤
            sortKey participations n (s.get ⟨i, hi2⟩) at hk
          rw [sortKey_finals _ _ _ hf, sortKey_finals _ _ _ hf] at hk
          rw [h1, h2] at hk
          simp only [if_true, if_false, Bool.false_eq_true, Prod.Lex.le_iff] at hk
          omega
    · intro i j hi hj h1 h2 hij
      have hi2 : i < s.length := by simpa using hi
      have hj2 : j < s.length := by simpa using hj
      simp only [assign_get dist s i hi hi2, assign_get dist s j hj hj2] at h1 h2 ⊢
      have hk := key_mono_of_sorted (docLe participations n) (sortKey participations n)
        (docLe_iff_sortKey participations n) (docSorted_sorted participations n)
        hi2 hj2 hij
      change sortKey participations n (s.get ⟨i, hi2⟩) ≤
        sortKey participations n (s.get ⟨j, hj2⟩) at hk
      rw [sortKey_finals _ _ _ hf, sortKey_finals _ _ _ hf] at hk
      rw [h1, h2] at hk
      simp only [if_true, Prod.Lex.le_iff] at hk
      omega

/-- C2 witness: a finalist with finals total 50, listed after a
non-finalist with qualification total 10000, is nevertheless placed
first. -/
theorem c2_witness :
    docHasFinalsResults finalsParts = true ∧
    hasFinalsScores ((docCalculateAndSaveRatingPoints (some pdOne) finalsParts).get
      ⟨0, by decide⟩).1 = true ∧
    hasFinalsScores ((docCalculateAndSaveRatingPoints (some pdOne) finalsParts).get
      ⟨1, by decide⟩).1 = false ∧
    ((docCalculateAndSaveRatingPoints (some pdOne) finalsParts).get ⟨0, by decide⟩).2.1 <
      ((docCalculateAndSaveRatingPoints (some pdOne) finalsParts).get ⟨1, by decide⟩).2.1 := by
  have h1 : hasFinalsScores ((docCalculateAndSaveRatingPoints (some pdOne) finalsParts).get
      ⟨0, by decide⟩).1 = true := by decide
  have h2 : hasFinalsScores ((docCalculateAndSaveRatingPoints (some pdOne) finalsParts).get
      ⟨1, by decide⟩).1 = false := by decide
  exact ⟨by decide, h1, h2,
    (c2_finals_precedence pdOne finalsParts _ rfl (by decide)).1 0 1 (by decide) (by decide) h1 h2⟩

/-- C3: with no finals scores anywhere, positions follow the
specification's qualification score (sum of game scores plus handicap
times the policy game count for the participant count) descending,
provided the cached totals match the game-score sums; score ties keep the
input order (the sort is stable). -/
theorem c3_qualification_order (dist : List (Nat × Int))
    (participations : List TournamentParticipation)
    (out : List (TournamentParticipation × Nat × Int))
    (hout : out = docCalculateAndSaveRatingPoints (some dist) participations)
    (hnf : docHasFinalsResults participations = false)
    (hts : ∀ p ∈ participations,
      p.totalScore.getD 0 = (p.gameScores.getD []).foldl (· + ·) 0) :
    (∀ (i j : Nat) (hi : i < out.length) (hj : j < out.length), i ≤ j →
        specQualScore (calculateNumberOfGames participations.length : Int)
            (out.get ⟨j, hj⟩).1 ≤
          specQualScore (calculateNumberOfGames participations.length : Int)
            (out.get ⟨i, hi⟩).1) ∧
    (∀ c : Int,
        (out.map (fun e => e.1)).filter
            (fun p => decide
              (specQualScore (calculateNumberOfGames participations.length : Int) p = c)) =
          participations.filter
            (fun p => decide
              (specQualScore (calculateNumberOfGames participations.length : Int) p = c))) := by
  subst hout
  by_cases hne : participations = []
  · subst hne
    constructor
    · intro i j hi
      exact absurd hi (by simp [docCalculateAndSaveRatingPoints])
    · intro c
      rfl
  · rw [docOut_eq dist participations hne]
    set n : Int := (calculateNumberOfGames participations.length : Int) with hn
    set s := List.insertionSort (docLe participations n) participations with hsdef
    have hperm : s.Perm participations := List.perm_insertionSort _ _
    have hqa : ∀ p ∈ participations, qualTotal n p = specQualScore n p := by
      intro p hp
      unfold qualTotal specQualScore
      rw [hts p hp]
    constructor
    · intro i j hi hj hij
      have hi2 : i < s.length := by simpa using hi
      have hj2 : j < s.length := by simpa using hj
      simp only [assign_get dist s i hi hi2, assign_get dist s j hj hj2]
      have hk := key_mono_of_sorted (docLe participations n) (sortKey participations n)
        (docLe_iff_sortKey participations n) (docSorted_sorted participations n)
        hi2 hj2 hij
      change sortKey participations n (s.get ⟨i, hi2⟩) ≤
        sortKey participations n (s.get ⟨j, hj2⟩) at hk
      rw [sortKey_noFinals _ _ _ hnf, sortKey_noFinals _ _ _ hnf, Prod.Lex.le_iff] at hk
      have hmi : s.get ⟨i, hi2⟩ ∈ participations :=
        hperm.mem_iff.mp (s.get_mem _ _)
      have hmj : s.get ⟨j, hj2⟩ ∈ participations :=
        hperm.mem_iff.mp (s.get_mem _ _)
      rw [← hqa _ hmi, ← hqa _ hmj]
      simp only [Prod.Lex.le_iff] at hk
      rcases hk with hk | ⟨-, hk⟩
      · exact absurd hk (lt_irrefl 0)
      · omega
    · intro c
      have hmap : ((s.enum.map
          (fun ip => (ip.2, ip.1 + 1, (dist.lookup (ip.1 + 1)).getD 0))).map
            (fun e => e.1)) = s := by
        rw [List.map_map]
        exact enumFrom_map_snd _ 0
      rw [hmap]
      have hpt : ∀ x ∈ participations,
          (decide (specQualScore n x = c)) =
            (decide (sortKey participations n x = toLex ((0 : ℤ), -c))) := by
        intro x hx
        apply decide_eq_decide.mpr
        rw [← hqa x hx, sortKey_noFinals _ _ _ hnf, toLex_inj, Prod.mk.injEq]
        constructor
        · intro h
          exact ⟨rfl, by omega⟩
        · rintro ⟨-, h⟩
          omega
      have hstab := filter_insertionSort_key (docLe participations n)
        (sortKey participations n) (docLe_iff_sortKey participations n)
        (toLex ((0 : ℤ), -c)) participations
      calc s.filter (fun p => decide (specQualScore n p = c))
          = s.filter (fun x => decide (sortKey participations n x = toLex ((0 : ℤ), -c))) :=
            List.filter_congr (fun x hx => hpt x (hperm.mem_iff.mp hx))
        _ = participations.filter
              (fun x => decide (sortKey participations n x = toLex ((0 : ℤ), -c))) := hstab
        _ = participations.filter (fun p => decide (specQualScore n p = c)) :=
            (List.filter_congr (fun x hx => hpt x hx)).symm

/-- C3 witness: three no-finals participations with totals 500, 600, 500;
the order is 600 first and the tied 500s keep their input order. -/
theorem c3_witness :
    docHasFinalsResults tieParts = false ∧
    (∀ p ∈ tieParts, p.totalScore.getD 0 = (p.gameScores.getD []).foldl (· + ·) 0) ∧
    ((docCalculateAndSaveRatingPoints (some pdOne) tieParts).map (fun e => e.1)).filter
        (fun p => decide
          (specQualScore (calculateNumberOfGames tieParts.length : Int) p = 500)) =
      tieParts.filter
        (fun p => decide
          (specQualScore (calculateNumberOfGames tieParts.length : Int) p = 500)) :=
  ⟨by decide, by decide,
    (c3_qualification_order pdOne tieParts _ rfl (by decide) (by decide)).2 500⟩

/-- C10 witness: an update with `gameScores = [200, 0, 150]` stores
`totalScore = 350`, the zero entry included. -/
theorem c10_witness :
    sampleUpdate.gameScores = some [200, 0, 150] ∧
    (docUpdateParticipationResult sampleParticipation sampleUpdate).totalScore =
      some ([200, 0, 150].foldl (· + ·) 0) ∧
    (docUpdateParticipationResult sampleParticipation sampleUpdate).gameScores =
      some [200, 0, 150] := by
  have h := c10_totalScore_cache sampleParticipation sampleUpdate [200, 0, 150] rfl
  exact ⟨rfl, h.1, h.2.1⟩

/-- C8: the leaderboard entries are sorted by `totalPoints` descending and
each entry's rank is its 1-indexed position in that order — ranks are
exactly `1..n`, so equal-point players get consecutive, never equal,
ranks. -/
theorem c8_leaderboard_ranking (rows : List SeasonParticipationRow)
    (out : List LeaderboardEntry) (hout : out = getLeaderboard rows) :
    out.map (fun e => e.rank) = List.range' 1 out.length ∧
    (∀ (i j : Nat) (hi : i < out.length) (hj : j < out.length), i ≤ j →
        (out.get ⟨j, hj⟩).totalPoints ≤ (out.get ⟨i, hi⟩).totalPoints) := by
  subst hout
  simp only [getLeaderboard]
  set s := List.insertionSort leaderboardLe ((rows.foldl insertRow []).map accToEntry)
    with hsdef
  constructor
  · have hlen : ((s.enum.map (fun ip => { ip.2 with rank := ip.1 + 1 })).length) = s.length := by
      simp
    rw [hlen, List.map_map]
    exact enumFrom_map_posIdx s 0
  · intro i j hi hj hij
    have hi2 : i < s.length := by simpa using hi
    have hj2 : j < s.length := by simpa using hj
    simp only [rank_assign_get s i hi hi2, rank_assign_get s j hj hj2]
    have hsorted : s.Sorted leaderboardLe :=
      sorted_insertionSort_key leaderboardLe (fun e => -e.totalPoints) leaderboardLe_iff _
    have hk := key_mono_of_sorted leaderboardLe (fun e => -e.totalPoints) leaderboardLe_iff
      hsorted hi2 hj2 hij
    simp only [neg_le_neg_iff] at hk
    omega

/-- C8 witness: two players with equal total points receive ranks 1 and 2
and the sortedness instance at those indices. -/
theorem c8_witness :
    (getLeaderboard tieRows).map (fun e => e.rank) =
        List.range' 1 (getLeaderboard tieRows).length ∧
    (0 : Nat) ≤ 1 ∧
    ((getLeaderboard tieRows).get ⟨1, by decide⟩).totalPoints ≤
      ((getLeaderboard tieRows).get ⟨0, by decide⟩).totalPoints := by
  have h := c8_leaderboard_ranking tieRows _ rfl
  exact ⟨h.1, by decide, h.2 0 1 (by decide) (by decide) (by decide)⟩

end Bowling
